import Mathlib

/-!
# Verification of the `mme_calc` formula library

Shallow embedding of the computational core of the materials-engineering
calculator: the phase-transformation, casting, corrosion, mechanical,
thermal, composite and crystallography formula functions, together with
the piecewise-linear hardness-conversion table and the galvanic-potential
lookup table.

Python floats are modelled as exact numbers: `ℚ` for the purely algebraic
functions (so that every statement is decidable on concrete inputs) and
`ℝ` for the functions that use `exp` / `log2` / real powers.  A Python
function that can raise becomes a Lean function into `Except PyError`.
-/

namespace MmeCalc

/-- The exceptions the library can raise.  `valueError` carries the exact
message string of the corresponding Python `ValueError`.  `unknownMetal`
models `ValueError(f"Unknown metal: {m}. Available: {keys}")` raised by
the galvanic lookup, keeping the two interpolated pieces of the message
(the offending input and the list of valid keys) as structured data.
`zeroDivisionError` models an uncaught Python `ZeroDivisionError`. -/
inductive PyError where
  | valueError (msg : String)
  | unknownMetal (offending : String) (available : List String)
  | zeroDivisionError
  deriving DecidableEq, Repr

/-- Equality of `Except` results is decidable componentwise, so concrete
runs of the embedded functions can be checked by `decide`. -/
instance exceptDecEq {ε α : Type} [DecidableEq ε] [DecidableEq α] :
    DecidableEq (Except ε α) := fun x y =>
  match x, y with
  | .ok a, .ok b =>
    if h : a = b then isTrue (by rw [h]) else isFalse (fun hc => h (Except.ok.inj hc))
  | .error e, .error f =>
    if h : e = f then isTrue (by rw [h]) else isFalse (fun hc => h (Except.error.inj hc))
  | .ok _, .error _ => isFalse Except.noConfusion
  | .error _, .ok _ => isFalse Except.noConfusion

/-! ## `mme_calc.phase` -/

/-- `lever_rule` from `src/mme_calc/phase.py`:
weight fractions `(W_alpha, W_beta)` with
`W_alpha = (c_beta - c0) / (c_beta - c_alpha)` and `W_beta = 1 - W_alpha`;
raises when the two boundary compositions coincide. -/
def lever_rule (c0 c_alpha c_beta : ℚ) : Except PyError (ℚ × ℚ) :=
  let denom := c_beta - c_alpha
  if denom = 0 then
    .error (.valueError "Phase boundary compositions must differ.")
  else
    let w_alpha := (c_beta - c0) / denom
    .ok (w_alpha, 1 - w_alpha)

/-! ## `mme_calc.composites` -/

/-- `rule_of_mixtures_longitudinal` from `src/mme_calc/composites.py`:
`E_c = E_f * V_f + E_m * (1 - V_f)` after checking `0 ≤ V_f ≤ 1`. -/
def rule_of_mixtures_longitudinal (e_fiber v_fiber e_matrix : ℚ) :
    Except PyError ℚ :=
  if ¬(0 ≤ v_fiber ∧ v_fiber ≤ 1) then
    .error (.valueError "Fiber volume fraction must be between 0 and 1.")
  else
    .ok (e_fiber * v_fiber + e_matrix * (1 - v_fiber))

/-! ## `mme_calc.casting` -/

/-- `newtonian_cooling_rate` from `src/mme_calc/casting.py`:
`dT/dt = -[h*A / (rho*cp*V)] * (T_current - T_ambient)`, validating only
that `volume`, `rho` and `cp` are positive (`h` and `area` are not
checked). -/
def newtonian_cooling_rate (h area rho cp volume t_current t_ambient : ℚ) :
    Except PyError ℚ :=
  if volume ≤ 0 ∨ rho ≤ 0 ∨ cp ≤ 0 then
    .error (.valueError "Volume, density, and specific heat must be positive.")
  else
    let biot_group := (h * area) / (rho * cp * volume)
    .ok (-biot_group * (t_current - t_ambient))

/-! ## `mme_calc.mechanical` — the HRC ↔ HB conversion table -/

/-- `_HRC_HB_TABLE` from `src/mme_calc/mechanical.py`: approximate
HB ↔ HRC conversion pairs `(HRC, HB)`, valid for HRC 20–55. -/
def _HRC_HB_TABLE : List (ℚ × ℚ) :=
  [(20, 226), (21, 231), (22, 237), (23, 243), (24, 247),
   (25, 253), (26, 258), (27, 264), (28, 271), (29, 279),
   (30, 286), (31, 294), (32, 301), (33, 311), (34, 319),
   (35, 327), (36, 336), (37, 344), (38, 353), (39, 362),
   (40, 371), (41, 381), (42, 390), (43, 400), (44, 409),
   (45, 421), (46, 432), (47, 442), (48, 453), (49, 465),
   (50, 477), (51, 489), (52, 500), (53, 514), (54, 528),
   (55, 545)]

/-- The scan loop shared by `hrc_to_hb` and `hb_to_hrc`:
`for i in range(len(table) - 1)` walks adjacent rows `(x1, y1), (x2, y2)`
and, on the first bracket with `x1 <= q <= x2`, returns
`y1 + (q - x1) / (x2 - x1) * (y2 - y1)`; `none` models falling through
the loop. -/
def interp_scan : List (ℚ × ℚ) → ℚ → Option ℚ
  | p :: q :: rest, x =>
    if p.1 ≤ x ∧ x ≤ q.1 then
      some (p.2 + (x - p.1) / (q.1 - p.1) * (q.2 - p.2))
    else
      interp_scan (q :: rest) x
  | _, _ => none

/-- `hrc_to_hb` from `src/mme_calc/mechanical.py`: range check, scan of
`_HRC_HB_TABLE` on the HRC column, and fall-through to the last table HB
value `_HRC_HB_TABLE[-1][1]`. -/
def hrc_to_hb (hrc : ℚ) : Except PyError ℚ :=
  if hrc < 20 ∨ 55 < hrc then
    .error (.valueError "HRC must be in the range 20–55 for reliable conversion.")
  else
    .ok ((interp_scan _HRC_HB_TABLE hrc).getD (_HRC_HB_TABLE.getLastD (0, 0)).2)

/-- `hb_to_hrc` from `src/mme_calc/mechanical.py`: same loop with the two
columns exchanged (bracket on the HB column, interpolate the HRC column),
falling through to `_HRC_HB_TABLE[-1][0]`. -/
def hb_to_hrc (hb : ℚ) : Except PyError ℚ :=
  if hb < 226 ∨ 545 < hb then
    .error (.valueError "HB must be in the range 226–545 for reliable HRC conversion.")
  else
    .ok ((interp_scan (_HRC_HB_TABLE.map Prod.swap) hb).getD
      (_HRC_HB_TABLE.getLastD (0, 0)).1)

/-! ## Claims C4, C9, C2 -/

/-- C4: for every `c0, cα, cβ` with `cα ≠ cβ`, `lever_rule` returns a pair
`(Wα, Wβ)` with `Wα + Wβ = 1` exactly. -/
theorem lever_rule_sum_one (c0 c_alpha c_beta : ℚ) (h : c_alpha ≠ c_beta) :
    ∃ wa wb, lever_rule c0 c_alpha c_beta = .ok (wa, wb) ∧ wa + wb = 1 := by
  refine ⟨(c_beta - c0) / (c_beta - c_alpha), 1 - (c_beta - c0) / (c_beta - c_alpha), ?_, by ring⟩
  unfold lever_rule
  rw [if_neg (sub_ne_zero.mpr (Ne.symm h))]

/-- Witness for C4 at the spec's worked example `leverRule(35, 20, 60)`. -/
theorem lever_rule_sum_one_witness :
    ∃ wa wb, lever_rule 35 20 60 = .ok (wa, wb) ∧ wa + wb = 1 :=
  lever_rule_sum_one 35 20 60 (by norm_num)

/-- C9: boundary volume fractions reduce the longitudinal rule of mixtures
to the pure-phase modulus: at `V_f = 0` the result is exactly `E_m`, at
`V_f = 1` exactly `E_f`. -/
theorem rule_of_mixtures_longitudinal_boundary (e_fiber e_matrix : ℚ) :
    rule_of_mixtures_longitudinal e_fiber 0 e_matrix = .ok e_matrix ∧
    rule_of_mixtures_longitudinal e_fiber 1 e_matrix = .ok e_fiber := by
  constructor <;>
    · unfold rule_of_mixtures_longitudinal
      rw [if_neg (by norm_num)]
      norm_num

/-- C2 counterexample: the code accepts `h = 0` (only `V`, `ρ`, `cp` are
validated), and then returns a cooling rate of exactly `0` even though the
object is above ambient — not a negative value as the claim states. -/
theorem newtonian_cooling_rate_zero_h_not_negative :
    newtonian_cooling_rate 0 1 1 1 1 2 1 = .ok 0 ∧ ¬((0 : ℚ) < 0) := by
  constructor
  · unfold newtonian_cooling_rate
    rw [if_neg (by norm_num)]
    norm_num
  · exact lt_irrefl 0

/-- C2 amended: if additionally `h > 0` and `A > 0`, every accepted input
with `T_current > T_ambient` yields a strictly negative cooling rate. -/
theorem newtonian_cooling_rate_neg (h area rho cp volume t_current t_ambient : ℚ)
    (hv : 0 < volume) (hr : 0 < rho) (hc : 0 < cp) (hh : 0 < h) (ha : 0 < area)
    (ht : t_ambient < t_current) :
    ∃ r, newtonian_cooling_rate h area rho cp volume t_current t_ambient = .ok r ∧
      r < 0 := by
  refine ⟨-((h * area) / (rho * cp * volume)) * (t_current - t_ambient), ?_, ?_⟩
  · unfold newtonian_cooling_rate
    rw [if_neg (by push_neg; exact ⟨hv, hr, hc⟩)]
  · have hg : 0 < (h * area) / (rho * cp * volume) :=
      div_pos (mul_pos hh ha) (mul_pos (mul_pos hr hc) hv)
    have hd : 0 < t_current - t_ambient := sub_pos.mpr ht
    nlinarith

/-- C6: `hrc_to_hb` fails exactly on inputs outside `[20, 55]` and
`hb_to_hrc` exactly outside `[226, 545]`; inside the ranges both return a
value, and a query equal to the last table entry returns the last table
value exactly. -/
theorem hardness_conversion_domain (x y : ℚ) :
    (x < 20 ∨ 55 < x ↔
      hrc_to_hb x =
        .error (.valueError "HRC must be in the range 20–55 for reliable conversion.")) ∧
    (¬(x < 20 ∨ 55 < x) → ∃ b, hrc_to_hb x = .ok b) ∧
    (y < 226 ∨ 545 < y ↔
      hb_to_hrc y =
        .error (.valueError "HB must be in the range 226–545 for reliable HRC conversion.")) ∧
    (¬(y < 226 ∨ 545 < y) → ∃ r, hb_to_hrc y = .ok r) ∧
    hrc_to_hb 55 = .ok 545 ∧ hb_to_hrc 545 = .ok 55 := by
  refine ⟨?_, ?_, ?_, ?_,
    by norm_num [hrc_to_hb, interp_scan, _HRC_HB_TABLE],
    by norm_num [hb_to_hrc, interp_scan, _HRC_HB_TABLE]⟩
  · constructor
    · intro hx
      unfold hrc_to_hb
      rw [if_pos hx]
    · intro h
      by_contra hx
      unfold hrc_to_hb at h
      rw [if_neg hx] at h
      exact Except.noConfusion h
  · intro hx
    exact ⟨_, by unfold hrc_to_hb; rw [if_neg hx]⟩
  · constructor
    · intro hy
      unfold hb_to_hrc
      rw [if_pos hy]
    · intro h
      by_contra hy
      unfold hb_to_hrc at h
      rw [if_neg hy] at h
      exact Except.noConfusion h
  · intro hy
    exact ⟨_, by unfold hb_to_hrc; rw [if_neg hy]⟩

/-- Witness for C6: failures just outside both ranges, successes inside. -/
theorem hardness_conversion_domain_witness :
    hrc_to_hb 19 =
      .error (.valueError "HRC must be in the range 20–55 for reliable conversion.") ∧
    (∃ b, hrc_to_hb 30 = .ok b) ∧
    hb_to_hrc 600 =
      .error (.valueError "HB must be in the range 226–545 for reliable HRC conversion.") ∧
    (∃ r, hb_to_hrc 300 = .ok r) :=
  ⟨(hardness_conversion_domain 19 600).1.mp (by norm_num),
   (hardness_conversion_domain 30 300).2.1 (by norm_num),
   (hardness_conversion_domain 19 600).2.2.1.mp (by norm_num),
   (hardness_conversion_domain 30 300).2.2.2.1 (by norm_num)⟩

/-- Witness for the amended C2 at a concrete cooling configuration. -/
theorem newtonian_cooling_rate_neg_witness :
    ∃ r, newtonian_cooling_rate 10 2 1 1 1 100 25 = .ok r ∧ r < 0 :=
  newtonian_cooling_rate_neg 10 2 1 1 1 100 25 (by norm_num) (by norm_num)
    (by norm_num) (by norm_num) (by norm_num) (by norm_num)

/-! ## `mme_calc.thermal` -/

/-- The generator sum `sum(l / k for l, k in layers)` inside
`composite_slab_heat_flux`.  Python raises `ZeroDivisionError` as soon as
a layer with zero conductivity is divided by; otherwise the sum of the
layer resistances is returned. -/
def sum_resistance : List (ℚ × ℚ) → Except PyError ℚ
  | [] => .ok 0
  | (l, k) :: rest =>
    if k = 0 then .error .zeroDivisionError
    else
      match sum_resistance rest with
      | .error e => .error e
      | .ok s => .ok (l / k + s)

/-- `composite_slab_heat_flux` from `src/mme_calc/thermal.py`: empty-layer
check, total series resistance `Σ(L_i / k_i)`, positivity check, then
`|ΔT| / Σ(L_i / k_i)`. -/
def composite_slab_heat_flux (delta_t : ℚ) (layers : List (ℚ × ℚ)) :
    Except PyError ℚ :=
  if layers = [] then .error (.valueError "At least one layer is required.")
  else
    match sum_resistance layers with
    | .error e => .error e
    | .ok total_resistance =>
      if total_resistance ≤ 0 then
        .error (.valueError "Total thermal resistance must be positive.")
      else
        .ok (|delta_t| / total_resistance)

/-- When every layer has nonzero conductivity the generator sum succeeds
and equals the mathematical series resistance. -/
theorem sum_resistance_ok (layers : List (ℚ × ℚ))
    (h : ∀ p ∈ layers, p.2 ≠ 0) :
    sum_resistance layers = .ok ((layers.map fun p => p.1 / p.2).sum) := by
  induction layers with
  | nil => simp [sum_resistance]
  | cons p rest ih =>
    obtain ⟨l, k⟩ := p
    have hk : k ≠ 0 := h (l, k) (List.mem_cons_self _ _)
    rw [sum_resistance, if_neg hk, ih (fun q hq => h q (List.mem_cons_of_mem _ hq))]
    simp

/-- A layer with zero conductivity makes the generator sum raise
`ZeroDivisionError`. -/
theorem sum_resistance_zero (layers : List (ℚ × ℚ))
    (h : ∃ p ∈ layers, p.2 = 0) :
    sum_resistance layers = .error .zeroDivisionError := by
  induction layers with
  | nil => simp at h
  | cons p rest ih =>
    obtain ⟨l, k⟩ := p
    by_cases hk : k = 0
    · rw [sum_resistance, if_pos hk]
    · obtain ⟨q, hq, hq0⟩ := h
      rcases List.mem_cons.mp hq with rfl | hq'
      · exact absurd hq0 hk
      · rw [sum_resistance, if_neg hk, ih ⟨q, hq', hq0⟩]

/-- C7 counterexample: a layer with zero conductivity makes the Python
generator sum raise `ZeroDivisionError` before any `DomainError`-style
validation can run.  Here the layers are nonempty and the remaining
resistance is `1 > 0`, so the claim would demand the result
`|ΔT| / Σ = 200`, yet the call fails — and with a different error. -/
theorem composite_slab_heat_flux_zero_conductivity :
    composite_slab_heat_flux 200 [(1, 1), (1, 0)] = .error .zeroDivisionError ∧
    ([((1 : ℚ), (1 : ℚ)), (1, 0)].map fun p => p.1 / p.2).sum = 1 ∧
    (Except.error .zeroDivisionError : Except PyError ℚ) ≠ .ok (|(200 : ℚ)| / 1) := by
  refine ⟨?_, by norm_num, by simp⟩
  rw [composite_slab_heat_flux, if_neg (by simp),
    sum_resistance_zero _ ⟨(1, 0), by simp, rfl⟩]

/-- C7 amended: `composite_slab_heat_flux` fails with the empty-layer
`ValueError` on an empty list; raises `ZeroDivisionError` when some layer
has zero conductivity; and otherwise fails with the resistance
`ValueError` exactly when `Σ(L_i / k_i) ≤ 0`, returning
`|ΔT| / Σ(L_i / k_i)` when the total resistance is positive. -/
theorem composite_slab_heat_flux_spec (dt : ℚ) (layers : List (ℚ × ℚ)) :
    (layers = [] → composite_slab_heat_flux dt layers =
      .error (.valueError "At least one layer is required.")) ∧
    (layers ≠ [] → (∃ p ∈ layers, p.2 = 0) →
      composite_slab_heat_flux dt layers = .error .zeroDivisionError) ∧
    (layers ≠ [] → (∀ p ∈ layers, p.2 ≠ 0) →
      ((layers.map fun p => p.1 / p.2).sum ≤ 0 →
        composite_slab_heat_flux dt layers =
          .error (.valueError "Total thermal resistance must be positive.")) ∧
      (0 < (layers.map fun p => p.1 / p.2).sum →
        composite_slab_heat_flux dt layers =
          .ok (|dt| / (layers.map fun p => p.1 / p.2).sum))) := by
  refine ⟨fun he => ?_, fun hne hz => ?_, fun hne hnz => ⟨fun hle => ?_, fun hpos => ?_⟩⟩
  · rw [composite_slab_heat_flux, if_pos he]
  · rw [composite_slab_heat_flux, if_neg hne, sum_resistance_zero _ hz]
  · rw [composite_slab_heat_flux, if_neg hne, sum_resistance_ok _ hnz]
    simp only
    rw [if_pos hle]
  · rw [composite_slab_heat_flux, if_neg hne, sum_resistance_ok _ hnz]
    simp only
    rw [if_neg (not_le.mpr hpos)]

/-- Witness for the amended C7: the spec's worked example
`compositeSlabHeatFlux(200, [(0.1, 50), (0.05, 100)]) = 80000`, together
with the empty-list failure and a zero-conductivity failure. -/
theorem composite_slab_heat_flux_spec_witness :
    composite_slab_heat_flux 200 [(1/10, 50), (1/20, 100)] = .ok 80000 ∧
    composite_slab_heat_flux 200 [] =
      .error (.valueError "At least one layer is required.") ∧
    composite_slab_heat_flux 200 [(1, 0)] = .error .zeroDivisionError := by
  refine ⟨?_, (composite_slab_heat_flux_spec 200 []).1 rfl,
    (composite_slab_heat_flux_spec 200 [(1, 0)]).2.1 (by simp) ⟨(1, 0), by simp, rfl⟩⟩
  have h := ((composite_slab_heat_flux_spec 200 [(1/10, 50), (1/20, 100)]).2.2
    (by simp) (by norm_num)).2 (by norm_num)
  rw [h]
  norm_num

/-! ## `mme_calc.corrosion` — galvanic series lookup -/

/-- The canonicalization `metal.lower().replace(" ", "_")` applied to both
inputs of `galvanic_potential_diff`.  Since the replaced pattern is the
single character `' '` (which `lower()` leaves unchanged), lowering and
replacing character by character is the same operation. -/
def canon (s : String) : String :=
  ⟨(s.data.map Char.toLower).map (fun c => if c = ' ' then '_' else c)⟩

/-- `_GALVANIC_POTENTIALS` from `src/mme_calc/corrosion.py`: approximate
corrosion potential in seawater (V vs SCE), more negative = more anodic.
A Python dict with distinct keys, kept in insertion order. -/
def _GALVANIC_POTENTIALS : List (String × ℚ) :=
  [("magnesium",     -1.60),
   ("zinc",          -1.03),
   ("aluminium",     -0.76),
   ("mild_steel",    -0.60),
   ("cast_iron",     -0.50),
   ("stainless_304", -0.08),
   ("stainless_316", -0.05),
   ("copper",        -0.20),
   ("brass",         -0.30),
   ("nickel",        -0.12),
   ("silver",        -0.02),
   ("titanium",      -0.05),
   ("gold",           0.18),
   ("platinum",       0.22)]

/-- `available_metals` from `src/mme_calc/corrosion.py`:
`list(_GALVANIC_POTENTIALS.keys())`. -/
def available_metals : List String := _GALVANIC_POTENTIALS.map Prod.fst

/-- `galvanic_potential_diff` from `src/mme_calc/corrosion.py`:
canonicalize both names, look each up (raising the unknown-metal
`ValueError` that names the offending original input and lists all keys),
then return `(|va - vb|, anode, cathode)` where the first metal is the
anode exactly when `va < vb`. -/
def galvanic_potential_diff (metal_a metal_b : String) :
    Except PyError (ℚ × String × String) :=
  let a_key := canon metal_a
  let b_key := canon metal_b
  match _GALVANIC_POTENTIALS.lookup a_key with
  | none => .error (.unknownMetal metal_a available_metals)
  | some va =>
    match _GALVANIC_POTENTIALS.lookup b_key with
    | none => .error (.unknownMetal metal_b available_metals)
    | some vb =>
      .ok (|va - vb|,
        if va < vb then metal_a else metal_b,
        if va < vb then metal_b else metal_a)

/-- The table value of a canonicalized metal name, for stating claims
about concrete lookups. -/
theorem lookup_stainless_316 :
    _GALVANIC_POTENTIALS.lookup (canon "stainless_316") = some (-0.05) := by
  rw [show canon "stainless_316" = "stainless_316" from by decide]
  simp [_GALVANIC_POTENTIALS, List.lookup]

theorem lookup_titanium :
    _GALVANIC_POTENTIALS.lookup (canon "titanium") = some (-0.05) := by
  rw [show canon "titanium" = "titanium" from by decide]
  simp [_GALVANIC_POTENTIALS, List.lookup]

theorem lookup_zinc :
    _GALVANIC_POTENTIALS.lookup (canon "zinc") = some (-1.03) := by
  rw [show canon "zinc" = "zinc" from by decide]
  simp [_GALVANIC_POTENTIALS, List.lookup]

theorem lookup_copper :
    _GALVANIC_POTENTIALS.lookup (canon "copper") = some (-0.20) := by
  rw [show canon "copper" = "copper" from by decide]
  simp [_GALVANIC_POTENTIALS, List.lookup]

theorem lookup_magnesium :
    _GALVANIC_POTENTIALS.lookup (canon "magnesium") = some (-1.60) := by
  rw [show canon "magnesium" = "magnesium" from by decide]
  simp [_GALVANIC_POTENTIALS, List.lookup]

theorem lookup_gold :
    _GALVANIC_POTENTIALS.lookup (canon "gold") = some (0.18) := by
  rw [show canon "gold" = "gold" from by decide]
  simp [_GALVANIC_POTENTIALS, List.lookup]

/-- C3 counterexample: `stainless_316` and `titanium` both have tabulated
potential `-0.05`, yet the code designates `titanium` (the second
argument) as anode.  No metal of the pair has a strictly more negative
potential, so "the anode is the metal whose tabulated potential is more
negative" fails on this in-table pair. -/
theorem galvanic_tie_titanium_stainless :
    galvanic_potential_diff "stainless_316" "titanium" =
      .ok (0, "titanium", "stainless_316") ∧
    _GALVANIC_POTENTIALS.lookup (canon "titanium") =
      _GALVANIC_POTENTIALS.lookup (canon "stainless_316") := by
  constructor
  · simp only [galvanic_potential_diff]
    rw [lookup_stainless_316, lookup_titanium]
    dsimp only
    rw [if_neg (lt_irrefl (-0.05 : ℚ))]
    norm_num
  · rw [lookup_stainless_316, lookup_titanium]

/-- C3 amended: whenever both canonicalized names are in the table and
their tabulated potentials differ, the result is
`(|va - vb|, anode, cathode)` with the strictly more negative metal
designated anode; in particular zinc–copper reports zinc as anode.
(On the tie the code designates the second argument anode.) -/
theorem galvanic_anode_more_negative :
    (∀ (a b : String) (va vb : ℚ),
      _GALVANIC_POTENTIALS.lookup (canon a) = some va →
      _GALVANIC_POTENTIALS.lookup (canon b) = some vb →
      va ≠ vb →
      ∃ anode cathode,
        galvanic_potential_diff a b = .ok (|va - vb|, anode, cathode) ∧
        ((va < vb ∧ anode = a ∧ cathode = b) ∨
         (vb < va ∧ anode = b ∧ cathode = a))) ∧
    galvanic_potential_diff "zinc" "copper" = .ok (0.83, "zinc", "copper") := by
  constructor
  · intro a b va vb ha hb hne
    simp only [galvanic_potential_diff]
    rw [ha, hb]
    dsimp only
    rcases hne.lt_or_lt with hlt | hgt
    · exact ⟨a, b, by rw [if_pos hlt, if_pos hlt], Or.inl ⟨hlt, rfl, rfl⟩⟩
    · have hnl : ¬va < vb := not_lt.mpr hgt.le
      exact ⟨b, a, by rw [if_neg hnl, if_neg hnl], Or.inr ⟨hgt, rfl, rfl⟩⟩
  · simp only [galvanic_potential_diff]
    rw [lookup_zinc, lookup_copper]
    dsimp only
    rw [if_pos (by norm_num : (-1.03 : ℚ) < -0.20)]
    rw [if_pos (by norm_num : (-1.03 : ℚ) < -0.20)]
    rw [show |(-1.03 : ℚ) - -0.20| = 0.83 from by
      rw [abs_of_nonpos (by norm_num)]; norm_num]

/-- Witness for the amended C3 on the pair magnesium–gold, whose
potentials differ. -/
theorem galvanic_anode_more_negative_witness :
    ∃ anode cathode,
      galvanic_potential_diff "magnesium" "gold" =
        .ok (|(-1.60 : ℚ) - 0.18|, anode, cathode) ∧
      (((-1.60 : ℚ) < 0.18 ∧ anode = "magnesium" ∧ cathode = "gold") ∨
       ((0.18 : ℚ) < -1.60 ∧ anode = "gold" ∧ cathode = "magnesium")) :=
  galvanic_anode_more_negative.1 "magnesium" "gold" (-1.60) 0.18
    lookup_magnesium lookup_gold (by norm_num)

/-- C8: when either name is absent from the table after canonicalization,
`galvanic_potential_diff` fails with the unknown-metal error naming the
offending original input and carrying the full key list — exactly the
list `available_metals` returns — and no result is produced. -/
theorem galvanic_unknown_metal_error (a b : String) :
    (_GALVANIC_POTENTIALS.lookup (canon a) = none →
      galvanic_potential_diff a b = .error (.unknownMetal a available_metals)) ∧
    (∀ va, _GALVANIC_POTENTIALS.lookup (canon a) = some va →
      _GALVANIC_POTENTIALS.lookup (canon b) = none →
      galvanic_potential_diff a b = .error (.unknownMetal b available_metals)) ∧
    available_metals = _GALVANIC_POTENTIALS.map Prod.fst := by
  refine ⟨fun ha => ?_, fun va ha hb => ?_, rfl⟩
  · simp only [galvanic_potential_diff]
    rw [ha]
  · simp only [galvanic_potential_diff]
    rw [ha, hb]

/-- Witness for C8: `unobtainium` is rejected in either position, with
the offending input named in the error. -/
theorem galvanic_unknown_metal_error_witness :
    galvanic_potential_diff "unobtainium" "zinc" =
      .error (.unknownMetal "unobtainium" available_metals) ∧
    galvanic_potential_diff "zinc" "unobtainium" =
      .error (.unknownMetal "unobtainium" available_metals) :=
  ⟨(galvanic_unknown_metal_error "unobtainium" "zinc").1 (by decide),
   (galvanic_unknown_metal_error "zinc" "unobtainium").2.1 (-1.03)
    lookup_zinc (by decide)⟩

/-! ## `mme_calc.phase` — Avrami kinetics (real-valued) -/

/-- Python float `t ** n` for the nonnegative bases that reach it inside
`avrami_fraction` (the code has already rejected `t < 0`):
`0.0 ** n` raises `ZeroDivisionError` for `n < 0`, yields `1.0` for
`n = 0` and `0.0` for `n > 0`, and a positive base gives the real power —
exactly `Real.rpow` on `[0, ∞)` except for the `0 ** negative` failure. -/
noncomputable def pyPow (x y : ℝ) : Except PyError ℝ :=
  if x = 0 ∧ y < 0 then .error .zeroDivisionError
  else .ok (x ^ y)

/-- `avrami_fraction` from `src/mme_calc/phase.py`:
`Y = 1 - exp(-k * t ** n)` after rejecting `t < 0` and `k < 0`. -/
noncomputable def avrami_fraction (k t n : ℝ) : Except PyError ℝ :=
  if t < 0 then .error (.valueError "Time must be non-negative.")
  else if k < 0 then .error (.valueError "Rate constant k must be non-negative.")
  else
    match pyPow t n with
    | .error e => .error e
    | .ok p => .ok (1 - Real.exp (-k * p))

/-- C1 counterexample: at `t = 0` with Avrami exponent `n = 0` the code
computes `0.0 ** 0.0 = 1.0`, so `avrami_fraction 1 0 0` returns
`1 - exp (-1) ≠ 0`, not the claimed exact `0`. -/
theorem avrami_fraction_zero_time_exponent_zero :
    avrami_fraction 1 0 0 = .ok (1 - Real.exp (-1)) ∧
    (1 : ℝ) - Real.exp (-1) ≠ 0 := by
  constructor
  · rw [avrami_fraction, if_neg (lt_irrefl 0), if_neg (by norm_num),
      pyPow, if_neg (by norm_num), Real.rpow_zero]
    norm_num
  · intro h
    have : Real.exp (-1) = 1 := by linarith
    rw [Real.exp_eq_one_iff] at this
    norm_num at this

/-- C1 amended: for `k ≥ 0` and `n > 0`, `avrami_fraction k 0 n` returns
exactly `0` (at `n = 0` it returns `1 - exp (-k)` and at `n < 0` it
raises `ZeroDivisionError`); and every value returned on valid inputs
(`t ≥ 0`, `k ≥ 0`) lies in `[0, 1)`. -/
theorem avrami_fraction_range (k t n y : ℝ) :
    (0 ≤ k → 0 < n → avrami_fraction k 0 n = .ok 0) ∧
    (0 ≤ k → 0 ≤ t → avrami_fraction k t n = .ok y → 0 ≤ y ∧ y < 1) := by
  constructor
  · intro hk hn
    rw [avrami_fraction, if_neg (lt_irrefl 0), if_neg (not_lt.mpr hk),
      pyPow, if_neg (by intro h; exact absurd hn (not_lt.mpr h.2.le)),
      Real.zero_rpow (ne_of_gt hn)]
    norm_num
  · intro hk ht hy
    rw [avrami_fraction, if_neg (not_lt.mpr ht), if_neg (not_lt.mpr hk), pyPow] at hy
    by_cases hz : t = 0 ∧ n < 0
    · rw [if_pos hz] at hy
      exact absurd hy (by intro h; exact Except.noConfusion h)
    · rw [if_neg hz] at hy
      dsimp only at hy
      have hyv : y = 1 - Real.exp (-k * t ^ n) := (Except.ok.inj hy).symm
      have hp : (0 : ℝ) ≤ t ^ n := Real.rpow_nonneg ht n
      have hexp_le : Real.exp (-k * t ^ n) ≤ 1 := by
        rw [show (1 : ℝ) = Real.exp 0 from (Real.exp_zero).symm]
        exact Real.exp_le_exp.mpr (by nlinarith)
      have hexp_pos : 0 < Real.exp (-k * t ^ n) := Real.exp_pos _
      constructor
      · rw [hyv]; linarith
      · rw [hyv]; linarith

/-- Witness for the amended C1: at `k = 1, n = 1` the fraction at `t = 0`
is exactly `0`, and at `t = 1` the returned value lies in `[0, 1)`. -/
theorem avrami_fraction_range_witness :
    avrami_fraction 1 0 1 = .ok 0 ∧
    (0 ≤ 1 - Real.exp (-1) ∧ 1 - Real.exp (-1) < 1) :=
  ⟨(avrami_fraction_range 1 0 1 0).1 (by norm_num) (by norm_num),
   (avrami_fraction_range 1 1 1 (1 - Real.exp (-1))).2 (by norm_num) (by norm_num)
    (by rw [avrami_fraction, if_neg (by norm_num), if_neg (by norm_num),
          pyPow, if_neg (by norm_num), Real.rpow_one]
        norm_num)⟩

/-! ## `mme_calc.crystallography` — ASTM grain size -/

/-- `astm_grain_count` from `src/mme_calc/crystallography.py`:
`N = 2 ** (n - 1)`, grains per square inch at 100x magnification. -/
noncomputable def astm_grain_count (n : ℝ) : ℝ := (2 : ℝ) ^ (n - 1)

/-- `astm_grain_number_from_count` from `src/mme_calc/crystallography.py`:
`n = 1 + log2(N)` after rejecting nonpositive counts. -/
noncomputable def astm_grain_number_from_count (grain_count : ℝ) :
    Except PyError ℝ :=
  if grain_count ≤ 0 then .error (.valueError "Grain count must be positive.")
  else .ok (1 + Real.logb 2 grain_count)

/-- C10: for every real grain size number `n`, `astm_grain_count n` is
strictly positive, so feeding it back through
`astm_grain_number_from_count` succeeds and recovers `n` exactly. -/
theorem astm_grain_roundtrip (n : ℝ) :
    0 < astm_grain_count n ∧
    astm_grain_number_from_count (astm_grain_count n) = .ok n := by
  have hpos : 0 < astm_grain_count n := Real.rpow_pos_of_pos (by norm_num) _
  refine ⟨hpos, ?_⟩
  rw [astm_grain_number_from_count, if_neg (not_le.mpr hpos), astm_grain_count,
    Real.logb_rpow (by norm_num) (by norm_num)]
  norm_num

/-! ## C5 — the HRC → HB → HRC round trip -/

/-- Along a chain of strictly increasing table rows, the head is bounded
by the last row in both columns. -/
theorem chain_le_getLastD :
    ∀ (l : List (ℚ × ℚ)) (a : ℚ × ℚ),
      List.Chain' (fun r s : ℚ × ℚ => r.1 < s.1 ∧ r.2 < s.2) (a :: l) →
      a.1 ≤ (l.getLastD a).1 ∧ a.2 ≤ (l.getLastD a).2 := by
  intro l
  induction l with
  | nil => intro a _; simp
  | cons b l ih =>
    intro a hch
    rcases List.chain'_cons.mp hch with ⟨hab, hch'⟩
    have hb := ih b hch'
    rw [List.getLastD_cons]
    exact ⟨le_of_lt (lt_of_lt_of_le hab.1 hb.1), le_of_lt (lt_of_lt_of_le hab.2 hb.2)⟩

/-- Inside one bracket `[(a, b), (c, d)]` the interpolated value stays in
`[b, d]` (strictly above `b` when `x` is strictly inside), and the inverse
interpolation on the swapped bracket recovers `x` exactly. -/
theorem interp_bracket (a b c d x : ℚ) (hac : a < c) (hbd : b < d)
    (hlo : a ≤ x) (hhi : x ≤ c) :
    b ≤ b + (x - a) / (c - a) * (d - b) ∧
    b + (x - a) / (c - a) * (d - b) ≤ d ∧
    (a < x → b < b + (x - a) / (c - a) * (d - b)) ∧
    a + (b + (x - a) / (c - a) * (d - b) - b) / (d - b) * (c - a) = x := by
  have hca : (0 : ℚ) < c - a := sub_pos.mpr hac
  have hdb : (0 : ℚ) < d - b := sub_pos.mpr hbd
  have hfrac0 : 0 ≤ (x - a) / (c - a) := div_nonneg (sub_nonneg.mpr hlo) hca.le
  have hfrac1 : (x - a) / (c - a) ≤ 1 :=
    (div_le_one hca).mpr (sub_le_sub_right hhi a)
  refine ⟨?_, ?_, ?_, ?_⟩
  · nlinarith
  · nlinarith
  · intro hax
    have : 0 < (x - a) / (c - a) := div_pos (sub_pos.mpr hax) hca
    nlinarith
  · field_simp
    ring

/-- The scan over any strictly increasing chain of rows, queried inside
the first-column span, succeeds with a value inside the second-column
span, and the scan over the swapped rows maps that value back to the
query exactly.  Both conversion directions share `_HRC_HB_TABLE`, so this
one induction gives the exact round trip. -/
theorem interp_scan_roundtrip :
    ∀ (l : List (ℚ × ℚ)) (p q : ℚ × ℚ) (x : ℚ),
      List.Chain' (fun r s : ℚ × ℚ => r.1 < s.1 ∧ r.2 < s.2) (p :: q :: l) →
      p.1 ≤ x → x ≤ (l.getLastD q).1 →
      ∃ y, interp_scan (p :: q :: l) x = some y ∧
        p.2 ≤ y ∧ y ≤ (l.getLastD q).2 ∧
        (p.1 < x → p.2 < y) ∧
        interp_scan ((p :: q :: l).map Prod.swap) y = some x := by
  intro l
  induction l with
  | nil =>
    intro p q x hch hlo hhi
    rcases List.chain'_cons.mp hch with ⟨hpq, _⟩
    simp only [List.getLastD_nil] at hhi ⊢
    obtain ⟨h1, h2, h3, h4⟩ := interp_bracket p.1 p.2 q.1 q.2 x hpq.1 hpq.2 hlo hhi
    refine ⟨p.2 + (x - p.1) / (q.1 - p.1) * (q.2 - p.2),
      by rw [interp_scan, if_pos ⟨hlo, hhi⟩], h1, h2, h3, ?_⟩
    rw [List.map_cons, List.map_cons, List.map_nil, interp_scan, if_pos ⟨h1, h2⟩]
    simp only [Prod.fst_swap, Prod.snd_swap]
    rw [h4]
  | cons r l ih =>
    intro p q x hch hlo hhi
    rcases List.chain'_cons.mp hch with ⟨hpq, hch'⟩
    rw [List.getLastD_cons] at hhi ⊢
    by_cases hxq : x ≤ q.1
    · obtain ⟨h1, h2, h3, h4⟩ := interp_bracket p.1 p.2 q.1 q.2 x hpq.1 hpq.2 hlo hxq
      have hq2last : q.2 ≤ (l.getLastD r).2 := by
        have := (chain_le_getLastD (r :: l) q hch').2
        rwa [List.getLastD_cons] at this
      refine ⟨p.2 + (x - p.1) / (q.1 - p.1) * (q.2 - p.2),
        by rw [interp_scan, if_pos ⟨hlo, hxq⟩], h1, le_trans h2 hq2last, h3, ?_⟩
      rw [List.map_cons, List.map_cons, interp_scan, if_pos ⟨h1, h2⟩]
      simp only [Prod.fst_swap, Prod.snd_swap]
      rw [h4]
    · have hq1x : q.1 < x := not_le.mp hxq
      obtain ⟨y, hscan, hqy, hylast, hstrict, hswap⟩ :=
        ih q r x hch' hq1x.le hhi
      have hq2y : q.2 < y := hstrict hq1x
      refine ⟨y, ?_, (lt_of_lt_of_le hpq.2 hqy).le, hylast,
        fun _ => lt_of_lt_of_le hpq.2 hqy, ?_⟩
      · rw [interp_scan, if_neg (fun h => hxq h.2)]
        exact hscan
      · rw [List.map_cons, List.map_cons, interp_scan,
          if_neg (fun h => absurd h.2 (not_le.mpr hq2y))]
        rw [List.map_cons] at hswap
        exact hswap

/-- The previous induction applied to the concrete `_HRC_HB_TABLE`, whose
rows are strictly increasing in both columns. -/
theorem hrc_hb_table_roundtrip (x : ℚ) (hlo : 20 ≤ x) (hhi : x ≤ 55) :
    ∃ y, interp_scan _HRC_HB_TABLE x = some y ∧ 226 ≤ y ∧ y ≤ 545 ∧
      interp_scan (_HRC_HB_TABLE.map Prod.swap) y = some x := by
  have hch : List.Chain' (fun r s : ℚ × ℚ => r.1 < s.1 ∧ r.2 < s.2)
      ((20, 226) :: (21, 231) :: _HRC_HB_TABLE.tail.tail) := by
    norm_num [_HRC_HB_TABLE, List.chain'_cons, List.chain'_singleton]
  have hlast : (_HRC_HB_TABLE.tail.tail.getLastD (21, 231)) = (55, 545) := by
    norm_num [_HRC_HB_TABLE]
  obtain ⟨y, h1, h2, h3, _, h5⟩ :=
    interp_scan_roundtrip _HRC_HB_TABLE.tail.tail (20, 226) (21, 231) x hch hlo
      (by rw [hlast]; exact hhi)
  rw [hlast] at h3
  exact ⟨y, h1, h2, h3, h5⟩

/-- C5: for every `hrc ∈ [20, 55]` the round trip
`hb_to_hrc (hrc_to_hb hrc)` succeeds and lands within `0.5` of `hrc` —
in exact arithmetic the two interpolations over the shared table invert
each other exactly, so the distance is `0`. -/
theorem hardness_roundtrip (x : ℚ) (hlo : 20 ≤ x) (hhi : x ≤ 55) :
    ∃ y r, hrc_to_hb x = .ok y ∧ hb_to_hrc y = .ok r ∧ |r - x| ≤ 1/2 := by
  obtain ⟨y, h1, h2, h3, h5⟩ := hrc_hb_table_roundtrip x hlo hhi
  refine ⟨y, x, ?_, ?_, by rw [sub_self, abs_zero]; norm_num⟩
  · rw [hrc_to_hb, if_neg (by push_neg; exact ⟨hlo, hhi⟩), h1]
    rfl
  · rw [hb_to_hrc, if_neg (by push_neg; exact ⟨h2, h3⟩), h5]
    rfl

/-- Witness for C5 at `hrc = 30.5`, strictly inside a table bracket. -/
theorem hardness_roundtrip_witness :
    ∃ y r, hrc_to_hb (61/2) = .ok y ∧ hb_to_hrc y = .ok r ∧ |r - 61/2| ≤ 1/2 :=
  hardness_roundtrip (61/2) (by norm_num) (by norm_num)
